import Mathlib

/-!
Verification of the Spacedrive indexer walker
(`core/crates/heavy-lifting/src/tasks/indexer/walker.rs`).

The walker is embedded shallowly: filesystem paths become lists of
components, the per-stage helper functions of `walker.rs` become Lean
functions with the same names, the asynchronous effects (directory
reading, stat, rule evaluation, database access) become explicit
function-valued parameters returning `Except`, and the state-machine
`run` loop becomes a sequential composition of the stage functions.
-/

namespace Walker

/-- Filesystem paths are modelled as lists of path components
(`PathBuf` in the source).  The walk root is a prefix of every path the
walker touches. -/
abbrev PathBuf := List String

/-- The four rule kinds of `sd_core_indexer_rules::RuleKind` consumed by
the walker.  `apply_all` produces, per kind, an ordered vector of boolean
acceptance results (one per registered rule of that kind). -/
inductive RuleKind where
  | AcceptFilesByGlob
  | RejectFilesByGlob
  | AcceptIfChildrenDirectoriesArePresent
  | RejectIfChildrenDirectoriesArePresent
deriving DecidableEq

/-- Filesystem metadata as observed by a stat call (`std::fs::Metadata`
plus the fields the walker later extracts from it).  Timestamps are
integers in milliseconds. -/
structure Metadata where
  isDir : Bool
  isSymlink : Bool
  inode : Nat
  sizeInBytes : Nat
  createdAt : Int
  modifiedAt : Int
  hidden : Bool
deriving DecidableEq

/-- `FilePathMetadata` (sd-core-file-path-helper): the persisted metadata
of one entry. -/
structure FilePathMetadata where
  inode : Nat
  sizeInBytes : Nat
  createdAt : Int
  modifiedAt : Int
  hidden : Bool
deriving DecidableEq

/-- Modelled from the spec: `FilePathMetadata::from_path` lives in
`sd-core-file-path-helper`, outside the sources at hand; the spec says
GatheringFilePathsToRemove "converts each accepted (path, metadata) into
`{isolated_path, metadata}`", so it is modelled as plain field
extraction. -/
def FilePathMetadata.from_path (_p : PathBuf) (m : Metadata) : FilePathMetadata :=
  ⟨m.inode, m.sizeInBytes, m.createdAt, m.modifiedAt, m.hidden⟩

/-- `IsolatedFilePathData`: the canonical, location-relative identity of
an entry.  The walker only consults its path identity and the
`to_parts().is_dir` flag, so only those are modelled. -/
structure IsolatedFilePathData where
  materializedPath : PathBuf
  isDir : Bool
deriving DecidableEq

/-- `WalkingEntry`: a disk-observed entry not yet reconciled with
persistence. -/
structure WalkingEntry where
  isoFilePath : IsolatedFilePathData
  metadata : FilePathMetadata
deriving DecidableEq

/-- `WalkedEntry`: a persistence-ready entry.  Identities (UUIDs) are
modelled as natural numbers. -/
structure WalkedEntry where
  pubId : Nat
  maybeObjectId : Option Nat
  isoFilePath : IsolatedFilePathData
  metadata : FilePathMetadata
deriving DecidableEq

/-- `From<WalkingEntry> for WalkedEntry`: a freshly created entry gets a
newly generated identity and no linked object. -/
def mkCreated (freshId : Nat) (e : WalkingEntry) : WalkedEntry :=
  ⟨freshId, none, e.isoFilePath, e.metadata⟩

/-- A persisted `file_path_walker::Data` record as returned by the
reconciliation proxy.  `maybeIsoFilePath` models the fallible
`IsolatedFilePathData::try_from(file_path)` decoding (which lives outside
the sources at hand) as a stored optional value; `pubId` models the byte
blob already decoded by `sd_utils::from_bytes_to_uuid`. -/
structure FilePathRecord where
  pubId : Nat
  objectId : Option Nat
  maybeIsoFilePath : Option IsolatedFilePathData
  inode : Option (List Nat)
  dateModified : Option Int
  hidden : Option Bool
  sizeInBytesBytes : Option (List Nat)
deriving DecidableEq

/-- `From<(Uuid, object_id, WalkingEntry)> for WalkedEntry`: an updated
entry copies identity and linked object id from its matched record. -/
def mkUpdated (fp : FilePathRecord) (e : WalkingEntry) : WalkedEntry :=
  ⟨fp.pubId, fp.objectId, e.isoFilePath, e.metadata⟩

/-- Modelled from the spec: `sd_utils::db::inode_from_db` is outside the
sources at hand; the spec only requires that the first eight stored bytes
are decoded into the inode integer compared with the observed inode, so
the bytes are assembled little-endian. -/
def inode_from_db (b : List Nat) : Nat :=
  b.getD 0 0 + b.getD 1 0 * 2 ^ 8 + b.getD 2 0 * 2 ^ 16 + b.getD 3 0 * 2 ^ 24 +
    b.getD 4 0 * 2 ^ 32 + b.getD 5 0 * 2 ^ 40 + b.getD 6 0 * 2 ^ 48 + b.getD 7 0 * 2 ^ 56

/-- `u64::from_be_bytes` applied to the eight stored size bytes, exactly
as `segregate_creates_and_updates` assembles them. -/
def u64_from_be_bytes (b : List Nat) : Nat :=
  b.getD 0 0 * 2 ^ 56 + b.getD 1 0 * 2 ^ 48 + b.getD 2 0 * 2 ^ 40 + b.getD 3 0 * 2 ^ 32 +
    b.getD 4 0 * 2 ^ 24 + b.getD 5 0 * 2 ^ 16 + b.getD 6 0 * 2 ^ 8 + b.getD 7 0

/-- The decoded `(iso_file_path, file_path)` pairs collected from the
records returned by `fetch_file_paths`; records whose isolated path fails
to decode are dropped (`flat_map`). -/
def decodeDbRecords (records : List FilePathRecord) :
    List (IsolatedFilePathData × FilePathRecord) :=
  records.filterMap (fun r => r.maybeIsoFilePath.map (fun iso => (iso, r)))

/-- Lookup in the collected `HashMap`; on duplicate keys the last
inserted record wins, hence the search over the reversed pair list. -/
def lookupRecord (pairs : List (IsolatedFilePathData × FilePathRecord))
    (iso : IsolatedFilePathData) : Option FilePathRecord :=
  (pairs.reverse.find? (fun pr => decide (pr.1 = iso))).map (fun pr => pr.2)

/-- The update test of `segregate_creates_and_updates`, lines 445-483 of
`walker.rs`: an update fires only when the stored record has both an
inode and a modification time, at least one of the four discrepancy
triggers holds (decoded inode differs, observed mtime exceeds the stored
one by more than 1 ms, stored hidden flag unset, stored hidden value
differs from the observed one), and the entry is not a directory whose
observed size differs from the decoded stored size. -/
def updateCheck (fp : FilePathRecord) (e : WalkingEntry) : Bool :=
  match fp.inode, fp.dateModified with
  | some inodeBytes, some dateModified =>
    (decide (inode_from_db inodeBytes ≠ e.metadata.inode)
        || decide (e.metadata.modifiedAt - dateModified > 1)
        || fp.hidden.isNone
        || decide (e.metadata.hidden ≠ fp.hidden.getD false))
      && !(e.isoFilePath.isDir
        && decide (e.metadata.sizeInBytes ≠ (fp.sizeInBytesBytes.map u64_from_be_bytes).getD 0))
  | _, _ => false

/-- One step of the `fold` in `segregate_creates_and_updates`.  The
accumulator is `(to_create, to_update, total_size)`; fresh identities are
drawn from the supply `freshIds`, indexed by how many creates happened so
far. -/
def segregateStep (pairs : List (IsolatedFilePathData × FilePathRecord))
    (freshIds : Nat → Nat)
    (acc : List WalkedEntry × List WalkedEntry × Nat) (e : WalkingEntry) :
    List WalkedEntry × List WalkedEntry × Nat :=
  let totalSize := acc.2.2 + e.metadata.sizeInBytes
  match lookupRecord pairs e.isoFilePath with
  | some fp =>
    if updateCheck fp e then (acc.1, acc.2.1 ++ [mkUpdated fp e], totalSize)
    else (acc.1, acc.2.1, totalSize)
  | none => (acc.1 ++ [mkCreated (freshIds acc.1.length) e], acc.2.1, totalSize)

/-- `segregate_creates_and_updates`: on an empty entry list, returns
empty sets and size 0 without touching the proxy; otherwise batches all
isolated paths into one `fetch_file_paths` lookup (whose failure aborts
the task) and folds every entry into create/update/size. -/
def segregate_creates_and_updates (freshIds : Nat → Nat)
    (fetchFilePaths : List IsolatedFilePathData → Except String (List FilePathRecord))
    (walkingEntries : List WalkingEntry) :
    Except String (List WalkedEntry × List WalkedEntry × Nat) :=
  if walkingEntries.isEmpty then Except.ok ([], [], 0)
  else
    match fetchFilePaths (walkingEntries.map (fun e => e.isoFilePath)) with
    | Except.error e => Except.error e
    | Except.ok records =>
      Except.ok (walkingEntries.foldl
        (segregateStep (decodeDbRecords records) freshIds) ([], [], 0))

/-- `ToWalkEntry`: one directory queued for a future walk task, carrying
the tri-state inherited children-acceptance flag (`none` = Unknown,
`some true` = Accepted, `some false` = Rejected) and its parent path. -/
structure ToWalkEntry where
  path : PathBuf
  parentDirAcceptedByItsChildren : Option Bool
  maybeParent : Option PathBuf
deriving DecidableEq

/-- One entry reaching ProcessingRulesResults: its path, its metadata and
the per-rule-kind acceptance vectors produced by the rule engine. -/
structure RuledEntry where
  path : PathBuf
  metadata : Metadata
  acceptance : RuleKind → Option (List Bool)

/-- `rejected_by_reject_glob`: any `RejectFilesByGlob` result false means
the entry is rejected. -/
def rejected_by_reject_glob (acceptance : RuleKind → Option (List Bool)) : Bool :=
  match acceptance RuleKind.RejectFilesByGlob with
  | none => false
  | some rejectResults => rejectResults.any (fun r => !r)

/-- `rejected_by_accept_glob`: an `AcceptFilesByGlob` vector whose
results are all false means the entry is rejected. -/
def rejected_by_accept_glob (acceptance : RuleKind → Option (List Bool)) : Bool :=
  match acceptance RuleKind.AcceptFilesByGlob with
  | none => false
  | some acceptResults => acceptResults.all (fun a => !a)

/-- `rejected_by_children_directories`: any
`RejectIfChildrenDirectoriesArePresent` result false means the directory
is hard-rejected. -/
def rejected_by_children_directories (acceptance : RuleKind → Option (List Bool)) : Bool :=
  match acceptance RuleKind.RejectIfChildrenDirectoriesArePresent with
  | none => false
  | some rejectResults => rejectResults.any (fun r => !r)

/-- The flag mutation performed by
`process_and_maybe_reject_by_directory_rules` when
`AcceptIfChildrenDirectoriesArePresent` results exist: any true result
sets the flag to Accepted; a flag still Unknown afterwards becomes
Rejected. -/
def updated_children_flag (acceptance : RuleKind → Option (List Bool))
    (acceptByChildrenDir : Option Bool) : Option Bool :=
  match acceptance RuleKind.AcceptIfChildrenDirectoriesArePresent with
  | none => acceptByChildrenDir
  | some acceptedByChildrenRules =>
    let a := if acceptedByChildrenRules.any id then some true else acceptByChildrenDir
    if a.isNone then some false else a

/-- `process_and_maybe_reject_by_directory_rules`: returns whether the
directory is hard-rejected, the (possibly updated) inherited flag, and
the (possibly extended) queued-subdirectory list.  The queue push
happens only when the directory is not hard-rejected and a queue exists
(dispatcher configured). -/
def process_and_maybe_reject_by_directory_rules (currentPath parent : PathBuf)
    (acceptance : RuleKind → Option (List Bool))
    (acceptByChildrenDir : Option Bool)
    (maybeToKeepWalking : Option (List ToWalkEntry)) :
    Bool × Option Bool × Option (List ToWalkEntry) :=
  if rejected_by_children_directories acceptance then
    (true, acceptByChildrenDir, maybeToKeepWalking)
  else
    let flag := updated_children_flag acceptance acceptByChildrenDir
    (false, flag,
      maybeToKeepWalking.map (fun l => l ++ [⟨currentPath, flag, some parent⟩]))

/-- `Path::ancestors()` for component lists: all prefixes of the path,
from the path itself down to the empty path. -/
def ancestors (p : PathBuf) : List PathBuf :=
  ((List.range (p.length + 1)).reverse).map (fun k => p.take k)

/-- The ancestor sequence iterated by `accept_ancestors`:
`ancestors().skip(1).take_while(ancestor != root)` — every strict
ancestor of the path, stopping at (and excluding) the walk root. -/
def strict_ancestors_below_root (p root : PathBuf) : List PathBuf :=
  ((ancestors p).drop 1).takeWhile (fun a => decide (a ≠ root))

/-- The ancestor-insertion loop of `accept_ancestors`: walk up the
ancestor sequence, inserting each ancestor into the set, and stop at the
first ancestor already registered. -/
def insert_ancestors (ancs : List PathBuf) (acc : List PathBuf) : List PathBuf :=
  match ancs with
  | [] => acc
  | a :: rest => if a ∈ acc then acc else insert_ancestors rest (a :: acc)

/-- `accept_ancestors`: register the path in the accepted mapping and
every not-yet-registered strict ancestor below the root in the ancestor
set. -/
def accept_ancestors (currentPath : PathBuf) (metadata : Metadata) (root : PathBuf)
    (accepted : List (PathBuf × Metadata)) (acceptedAncestors : List PathBuf) :
    List (PathBuf × Metadata) × List PathBuf :=
  (accepted ++ [(currentPath, metadata)],
    insert_ancestors (strict_ancestors_below_root currentPath root) acceptedAncestors)

/-- The accumulating state of the ProcessingRulesResults fold. -/
structure ProcessState where
  accepted : List (PathBuf × Metadata)
  acceptedAncestors : List PathBuf
  maybeToKeepWalking : Option (List ToWalkEntry)

/-- The body of the `fold` inside `process_rules_results`, for a single
entry: reject-glob check first, then (directories only) the directory
rules, then the accept-glob check, then acceptance gated on the
effective inherited children flag. -/
def process_one_entry (sourceDirectory root : PathBuf)
    (parentDirAcceptedByItsChildren : Option Bool)
    (st : ProcessState) (e : RuledEntry) : ProcessState :=
  if rejected_by_reject_glob e.acceptance then st
  else
    let dirResult :=
      if e.metadata.isDir then
        process_and_maybe_reject_by_directory_rules e.path sourceDirectory e.acceptance
          parentDirAcceptedByItsChildren st.maybeToKeepWalking
      else (false, parentDirAcceptedByItsChildren, st.maybeToKeepWalking)
    if dirResult.1 then { st with maybeToKeepWalking := dirResult.2.2 }
    else if rejected_by_accept_glob e.acceptance then
      { st with maybeToKeepWalking := dirResult.2.2 }
    else if (dirResult.2.1).getD true then
      let res := accept_ancestors e.path e.metadata root st.accepted st.acceptedAncestors
      { accepted := res.1, acceptedAncestors := res.2, maybeToKeepWalking := dirResult.2.2 }
    else { st with maybeToKeepWalking := dirResult.2.2 }

/-- `process_rules_results`: fold every surviving entry through the rule
precedence, starting from empty accepted sets and the task-level
queued-subdirectory list (`some []` when a dispatcher is configured,
`none` otherwise). -/
def process_rules_results (sourceDirectory root : PathBuf)
    (parentDirAcceptedByItsChildren : Option Bool)
    (entries : List RuledEntry)
    (maybeToKeepWalking : Option (List ToWalkEntry)) : ProcessState :=
  entries.foldl (process_one_entry sourceDirectory root parentDirAcceptedByItsChildren)
    ⟨[], [], maybeToKeepWalking⟩

/-- A `file_path_pub_and_cas_ids::Data` removal record. -/
structure RemoveData where
  pubId : Nat
  casId : Option String
deriving DecidableEq

/-- One step of the `Walking` stage: a successful directory entry
appends its path, a failed one appends its error. -/
def walkStep (acc : List PathBuf × List String) (r : Except String PathBuf) :
    List PathBuf × List String :=
  match r with
  | Except.ok p => (acc.1 ++ [p], acc.2)
  | Except.error e => (acc.1, acc.2 ++ [e])

/-- One step of `collect_metadata`. -/
def collectStep (metadataOf : PathBuf → Except String Metadata)
    (acc : List (PathBuf × Metadata) × List String) (p : PathBuf) :
    List (PathBuf × Metadata) × List String :=
  match metadataOf p with
  | Except.ok m => (acc.1 ++ [(p, m)], acc.2)
  | Except.error e => (acc.1, acc.2 ++ [e])

/-- `collect_metadata`: stat every found path; a failure is recorded and
the path dropped. -/
def collect_metadata (metadataOf : PathBuf → Except String Metadata)
    (foundPaths : List PathBuf) (errors : List String) :
    List (PathBuf × Metadata) × List String :=
  foundPaths.foldl (collectStep metadataOf) ([], errors)

/-- One step of `apply_indexer_rules`. -/
def rulesStep (applyRules : PathBuf → Metadata → Except String (RuleKind → Option (List Bool)))
    (acc : List RuledEntry × List String) (pm : PathBuf × Metadata) :
    List RuledEntry × List String :=
  match applyRules pm.1 pm.2 with
  | Except.ok a => (acc.1 ++ [⟨pm.1, pm.2, a⟩], acc.2)
  | Except.error e => (acc.1, acc.2 ++ [e])

/-- `apply_indexer_rules`: symlinks are unconditionally discarded, then
the rule engine is applied to every remaining entry; an engine failure is
recorded and the entry dropped. -/
def apply_indexer_rules
    (applyRules : PathBuf → Metadata → Except String (RuleKind → Option (List Bool)))
    (pathsAndMetadatas : List (PathBuf × Metadata)) (errors : List String) :
    List RuledEntry × List String :=
  (pathsAndMetadatas.filter (fun pm => !pm.2.isSymlink)).foldl
    (rulesStep applyRules) ([], errors)

/-- One step of the isolated-path build inside
`gather_file_paths_to_remove`: a successful build contributes a walking
entry and a lookup predicate, a failed one records its error. -/
def gatherBuildStep (buildIso : PathBuf → Bool → Except String IsolatedFilePathData)
    (acc : List WalkingEntry × List IsolatedFilePathData × List String)
    (pm : PathBuf × Metadata) :
    List WalkingEntry × List IsolatedFilePathData × List String :=
  match buildIso pm.1 pm.2.isDir with
  | Except.ok iso =>
    (acc.1 ++ [⟨iso, FilePathMetadata.from_path pm.1 pm.2⟩], acc.2.1 ++ [iso], acc.2.2)
  | Except.error e => (acc.1, acc.2.1, acc.2.2 ++ [e])

/-- `gather_file_paths_to_remove`: build an isolated path and metadata
for every accepted entry (build failure recorded, entry dropped), then
ask the proxy for removal candidates.  A fetch failure is non-fatal: the
error is recorded and the removal set is empty
(`map_err(push).unwrap_or_default()`). -/
def gather_file_paths_to_remove
    (buildIso : PathBuf → Bool → Except String IsolatedFilePathData)
    (fetchFilePathsToRemove :
      IsolatedFilePathData → List IsolatedFilePathData → Except String (List RemoveData))
    (acceptedPaths : List (PathBuf × Metadata))
    (entryIsoFilePath : IsolatedFilePathData)
    (errors : List String) :
    (List WalkingEntry × List RemoveData) × List String :=
  let built := acceptedPaths.foldl (gatherBuildStep buildIso) ([], [], errors)
  match fetchFilePathsToRemove entryIsoFilePath built.2.1 with
  | Except.ok toRemoveEntries => ((built.1, toRemoveEntries), built.2.2)
  | Except.error e => ((built.1, []), built.2.2 ++ [e])

/-- One step of the child-task construction inside `keep_walking`: a
failed isolated-path build of the queued path is recorded and the entry
dropped. -/
def keepWalkingStep (buildIso : PathBuf → Bool → Except String IsolatedFilePathData)
    (acc : List ToWalkEntry × List String) (te : ToWalkEntry) :
    List ToWalkEntry × List String :=
  match buildIso te.path true with
  | Except.ok _ => (acc.1 ++ [te], acc.2)
  | Except.error e => (acc.1, acc.2 ++ [e])

/-- `keep_walking`: only when a dispatcher is configured and a queue
exists are the queued subdirectories turned into child tasks. -/
def keep_walking (hasDispatcher : Bool)
    (buildIso : PathBuf → Bool → Except String IsolatedFilePathData)
    (maybeToKeepWalking : Option (List ToWalkEntry)) (errors : List String) :
    List ToWalkEntry × List String :=
  match hasDispatcher, maybeToKeepWalking with
  | true, some toKeepWalking => toKeepWalking.foldl (keepWalkingStep buildIso) ([], errors)
  | _, _ => ([], errors)

/-- The external collaborators of one walk task: directory-entry stream,
metadata provider, rule engine, isolated-path factory and the two
reconciliation-proxy queries. -/
structure WalkEnv where
  readDir : PathBuf → Except String (List (Except String PathBuf))
  metadataOf : PathBuf → Except String Metadata
  applyRules : PathBuf → Metadata → Except String (RuleKind → Option (List Bool))
  buildIso : PathBuf → Bool → Except String IsolatedFilePathData
  fetchFilePaths : List IsolatedFilePathData → Except String (List FilePathRecord)
  fetchFilePathsToRemove :
    IsolatedFilePathData → List IsolatedFilePathData → Except String (List RemoveData)

/-- The terminal `WalkOutput` of one walk task; the child task handles
are modelled by the queued subdirectory descriptors actually
dispatched. -/
structure WalkOutput where
  toCreate : List WalkedEntry
  toUpdate : List WalkedEntry
  toRemove : List RemoveData
  acceptedAncestors : List PathBuf
  errors : List String
  directory : PathBuf
  totalSize : Nat
  maybeParent : Option PathBuf
  keepWalking : List ToWalkEntry

/-- The interior stages of one walk task between a successful directory
open and Finalize: Walking, CollectingMetadata, CheckingIndexerRules,
ProcessingRulesResults and GatheringFilePathsToRemove.  Returns the
processing state together with the gathered walking entries, removal
candidates and accumulated errors. -/
def stagesAfterRead (env : WalkEnv) (root : PathBuf) (entry : ToWalkEntry)
    (entryIsoFilePath : IsolatedFilePathData) (hasDispatcher : Bool)
    (dirEntryResults : List (Except String PathBuf)) :
    ProcessState × ((List WalkingEntry × List RemoveData) × List String) :=
  let walked := dirEntryResults.foldl walkStep ([], [])
  let collected := collect_metadata env.metadataOf walked.1 walked.2
  let ruled := apply_indexer_rules env.applyRules collected.1 collected.2
  let maybeToKeepWalking : Option (List ToWalkEntry) :=
    if hasDispatcher then some [] else none
  let st := process_rules_results entry.path root entry.parentDirAcceptedByItsChildren
    ruled.1 maybeToKeepWalking
  (st, gather_file_paths_to_remove env.buildIso env.fetchFilePathsToRemove
    st.accepted entryIsoFilePath ruled.2)

/-- The stage pipeline of `WalkDirTask::run`, with interruption elided
(every stage is run to completion in order): Start opens the directory
(fatal on failure), the interior stages run, and Finalize segregates
creates from updates (fatal on lookup failure) and dispatches the queued
subdirectories into child tasks. -/
def WalkDirTask.run (env : WalkEnv) (root : PathBuf) (entry : ToWalkEntry)
    (entryIsoFilePath : IsolatedFilePathData) (hasDispatcher : Bool)
    (freshIds : Nat → Nat) : Except String WalkOutput :=
  match env.readDir entry.path with
  | Except.error e => Except.error e
  | Except.ok dirEntryResults =>
    let sg := stagesAfterRead env root entry entryIsoFilePath hasDispatcher dirEntryResults
    match segregate_creates_and_updates freshIds env.fetchFilePaths sg.2.1.1 with
    | Except.error e => Except.error e
    | Except.ok seg =>
      let kw := keep_walking hasDispatcher env.buildIso sg.1.maybeToKeepWalking sg.2.2
      Except.ok
        { toCreate := seg.1
          toUpdate := seg.2.1
          toRemove := sg.2.1.2
          acceptedAncestors := sg.1.acceptedAncestors
          errors := kw.2
          directory := entry.path
          totalSize := seg.2.2
          maybeParent := entry.maybeParent
          keepWalking := kw.1 }

/-- Definition following the spec's words for claim C1 (to be compared
with `updateCheck` from the source): a present entry is updated iff the
decoded stored inode differs from the observed one, or the stored
modification time differs from the observed one by more than 1 ms, or
the stored hidden flag — an unset flag treated as the default value —
differs from the observed hidden flag.  The spec's "skip when the only
discrepancy is size on a directory entry" exception is vacuous under this
reading, because a size difference is not among the triggers. -/
def spec_update_condition (fp : FilePathRecord) (e : WalkingEntry) : Bool :=
  (match fp.inode with
    | some inodeBytes => decide (inode_from_db inodeBytes ≠ e.metadata.inode)
    | none => false)
    || decide ((e.metadata.modifiedAt - (fp.dateModified.getD e.metadata.modifiedAt)).natAbs > 1)
    || decide (fp.hidden.getD false ≠ e.metadata.hidden)

/-- Strip the identity from a walked entry, recovering the walking entry
it was built from. -/
def toWalkingEntry (w : WalkedEntry) : WalkingEntry :=
  ⟨w.isoFilePath, w.metadata⟩

/-- The create list produced by the segregation fold from a given
fresh-identity index onwards: exactly the entries absent from the decoded
persistence map, in order, each with the next fresh identity. -/
def createsFrom (pairs : List (IsolatedFilePathData × FilePathRecord))
    (freshIds : Nat → Nat) (k : Nat) : List WalkingEntry → List WalkedEntry
  | [] => []
  | e :: es =>
    match lookupRecord pairs e.isoFilePath with
    | none => mkCreated (freshIds k) e :: createsFrom pairs freshIds (k + 1) es
    | some _ => createsFrom pairs freshIds k es

/-- The update contribution of one walking entry: a walked entry carrying
the matched record's identity when the entry is present and the update
test fires, nothing otherwise. -/
def updateOutcome (pairs : List (IsolatedFilePathData × FilePathRecord))
    (e : WalkingEntry) : Option WalkedEntry :=
  match lookupRecord pairs e.isoFilePath with
  | some fp => if updateCheck fp e then some (mkUpdated fp e) else none
  | none => none

/-- An ancestor chain: a list in which every element is followed exactly
by its own strict-ancestors-below-root sequence. -/
inductive IsChain (root : PathBuf) : List PathBuf → Prop where
  | nil : IsChain root []
  | cons (a : PathBuf) (h : IsChain root (strict_ancestors_below_root a root)) :
      IsChain root (a :: strict_ancestors_below_root a root)

/-- Ancestor-closure of a registered set: every registered path has all
of its strict ancestors below the root registered as well. -/
def AncClosed (root : PathBuf) (acc : List PathBuf) : Prop :=
  ∀ x ∈ acc, ∀ y ∈ strict_ancestors_below_root x root, y ∈ acc

/-- Sample metadata of a directory entry. -/
def sampleDirMeta : Metadata := ⟨true, false, 7, 0, 0, 0, false⟩

/-- Sample metadata of a file entry. -/
def sampleFileMeta : Metadata := ⟨false, false, 7, 0, 0, 0, false⟩

/-- Rule output with no rule of any kind registered. -/
def accNone : RuleKind → Option (List Bool) := fun _ => none

/-- Rule output: one children-presence reject rule whose result is true. -/
def accRejectChildrenTrue : RuleKind → Option (List Bool) := fun k =>
  match k with
  | RuleKind.RejectIfChildrenDirectoriesArePresent => some [true]
  | _ => none

/-- Rule output: one children-presence reject rule whose result is false. -/
def accRejectChildrenFalse : RuleKind → Option (List Bool) := fun k =>
  match k with
  | RuleKind.RejectIfChildrenDirectoriesArePresent => some [false]
  | _ => none

/-- Rule output: one children-presence accept rule whose result is false. -/
def accAcceptChildrenFalse : RuleKind → Option (List Bool) := fun k =>
  match k with
  | RuleKind.AcceptIfChildrenDirectoriesArePresent => some [false]
  | _ => none

/-- Rule output: a reject glob fires (result false) while an accept glob
matches the same path (result true). -/
def accRejectGlobFires : RuleKind → Option (List Bool) := fun k =>
  match k with
  | RuleKind.RejectFilesByGlob => some [false]
  | RuleKind.AcceptFilesByGlob => some [true]
  | _ => none

/-- Rule output: one accept glob whose result is true. -/
def accAcceptGlobTrue : RuleKind → Option (List Bool) := fun k =>
  match k with
  | RuleKind.AcceptFilesByGlob => some [true]
  | _ => none

/-- Rule output: one accept glob whose result is false. -/
def accAcceptGlobAllFalse : RuleKind → Option (List Bool) := fun k =>
  match k with
  | RuleKind.AcceptFilesByGlob => some [false]
  | _ => none

/-- A directory entry carrying a true children-presence reject result. -/
def entryRejChildTrue : RuledEntry := ⟨["r", "d"], sampleDirMeta, accRejectChildrenTrue⟩

/-- A directory entry carrying a false children-presence reject result. -/
def entryRejChildFalse : RuledEntry := ⟨["r", "d"], sampleDirMeta, accRejectChildrenFalse⟩

/-- A directory entry carrying an all-false children-presence accept rule. -/
def entryAccChildFalse : RuledEntry := ⟨["r", "d"], sampleDirMeta, accAcceptChildrenFalse⟩

/-- A file entry rejected by a reject glob and matched by an accept glob. -/
def entryRejGlob : RuledEntry := ⟨["r", "f"], sampleFileMeta, accRejectGlobFires⟩

/-- A file entry accepted by an accept glob. -/
def entryAccGlobTrue : RuledEntry := ⟨["r", "f"], sampleFileMeta, accAcceptGlobTrue⟩

/-- A directory entry failing its accept glob. -/
def entryAccGlobFalseDir : RuledEntry := ⟨["r", "d"], sampleDirMeta, accAcceptGlobAllFalse⟩

/-- A rule-free file entry nested three levels below the walk root. -/
def entryPlain : RuledEntry := ⟨["r", "a", "b", "c"], sampleFileMeta, accNone⟩

/-- An empty processing state with a queued-subdirectory list (dispatcher
configured). -/
def emptyState : ProcessState := ⟨[], [], some []⟩

/-- An empty processing state without a queue (no dispatcher). -/
def emptyStateNoQueue : ProcessState := ⟨[], [], none⟩

/-- Sample isolated path of a file entry. -/
def isoF : IsolatedFilePathData := ⟨["r", "f"], false⟩

/-- Sample isolated path of a second file entry. -/
def isoG : IsolatedFilePathData := ⟨["r", "g"], false⟩

/-- Sample observed file metadata. -/
def fpmSample : FilePathMetadata := ⟨0, 0, 0, 100, false⟩

/-- A walking entry whose isolated path is present in persistence. -/
def wePresent : WalkingEntry := ⟨isoF, fpmSample⟩

/-- A walking entry whose isolated path is absent from persistence. -/
def weAbsent : WalkingEntry := ⟨isoG, fpmSample⟩

/-- A persisted record matching `wePresent` in inode, modification time
and size, but whose hidden flag was never set. -/
def recHiddenUnset : FilePathRecord :=
  ⟨42, some 9, some isoF, some [0, 0, 0, 0, 0, 0, 0, 0], some 100, none,
    some [0, 0, 0, 0, 0, 0, 0, 0]⟩

/-- A base environment: an empty directory, a working path factory and a
working reconciliation proxy. -/
def envBase : WalkEnv :=
  ⟨fun _ => Except.ok [], fun _ => Except.error "stat", fun _ _ => Except.error "rules",
    fun p d => Except.ok ⟨p, d⟩, fun _ => Except.ok [], fun _ _ => Except.ok []⟩

/-- `envBase` with a failing removal-candidate fetch. -/
def envRemovalFails : WalkEnv :=
  { envBase with fetchFilePathsToRemove := fun _ _ => Except.error "rm" }

/-- `envBase` with a failing directory open. -/
def envOpenFails : WalkEnv :=
  { envBase with readDir := fun _ => Except.error "open" }

/-- A sample directory descriptor for a walk task. -/
def sampleToWalk : ToWalkEntry := ⟨["r", "d"], none, none⟩

/-- A sample isolated path for the walked directory itself. -/
def sampleIso : IsolatedFilePathData := ⟨["r"], true⟩

/-- The output of walking an empty directory whose removal-candidate
fetch fails. -/
def outRemovalFails : WalkOutput := ⟨[], [], [], [], ["rm"], ["r", "d"], 0, none, []⟩

/-- The output of walking an empty directory without a dispatcher. -/
def outNoDispatcher : WalkOutput := ⟨[], [], [], [], [], ["r", "d"], 0, none, []⟩

theorem rejected_by_reject_glob_of_mem (acceptance : RuleKind → Option (List Bool))
    (rs : List Bool) (h1 : acceptance RuleKind.RejectFilesByGlob = some rs)
    (h2 : false ∈ rs) : rejected_by_reject_glob acceptance = true := by
  unfold rejected_by_reject_glob
  rw [h1]
  simp only [List.any_eq_true]
  exact ⟨false, h2, rfl⟩

theorem rejected_by_children_of_mem (acceptance : RuleKind → Option (List Bool))
    (rs : List Bool)
    (h1 : acceptance RuleKind.RejectIfChildrenDirectoriesArePresent = some rs)
    (h2 : false ∈ rs) : rejected_by_children_directories acceptance = true := by
  unfold rejected_by_children_directories
  rw [h1]
  simp only [List.any_eq_true]
  exact ⟨false, h2, rfl⟩

theorem pmr_not_rejected (cp parent : PathBuf) (acceptance : RuleKind → Option (List Bool))
    (flag : Option Bool) (mtkw : Option (List ToWalkEntry))
    (h : rejected_by_children_directories acceptance = false) :
    process_and_maybe_reject_by_directory_rules cp parent acceptance flag mtkw =
      (false, updated_children_flag acceptance flag,
        mtkw.map (fun l =>
          l ++ [⟨cp, updated_children_flag acceptance flag, some parent⟩])) := by
  unfold process_and_maybe_reject_by_directory_rules
  simp [h]

/-- C4: any false result of a `RejectFilesByGlob` rule rejects the entry
immediately: the processing state is returned unchanged, so the entry is
excluded from the accepted set, no directory rule runs, no subdirectory
is queued and no ancestor is registered, regardless of any
`AcceptFilesByGlob` results on the same path. -/
theorem reject_glob_precedence (src root : PathBuf) (pf : Option Bool)
    (st : ProcessState) (e : RuledEntry) (rs : List Bool)
    (h1 : e.acceptance RuleKind.RejectFilesByGlob = some rs) (h2 : false ∈ rs) :
    process_one_entry src root pf st e = st := by
  have hr : rejected_by_reject_glob e.acceptance = true :=
    rejected_by_reject_glob_of_mem _ rs h1 h2
  simp [process_one_entry, hr]

/-- Witness for C4: a file matched by an accept glob but failed by a
reject glob is dropped with the state unchanged. -/
theorem reject_glob_precedence_witness :
    process_one_entry ["r"] ["r"] none emptyState entryRejGlob = emptyState :=
  reject_glob_precedence ["r"] ["r"] none emptyState entryRejGlob [false] rfl
    (List.mem_singleton.mpr rfl)

/-- C2 counterexample: a directory whose only
`RejectIfChildrenDirectoriesArePresent` result is `true` is NOT
hard-rejected by the code: it lands in the accepted set and is queued for
walking, contradicting the claim that a true result hard-rejects. -/
theorem children_reject_polarity_counterexample :
    entryRejChildTrue.acceptance RuleKind.RejectIfChildrenDirectoriesArePresent
        = some [true] ∧
      entryRejChildTrue.metadata.isDir = true ∧
      (process_rules_results ["r"] ["r"] none [entryRejChildTrue] (some [])).accepted
        = [(["r", "d"], sampleDirMeta)] ∧
      (process_rules_results ["r"] ["r"] none [entryRejChildTrue] (some [])).maybeToKeepWalking
        = some [⟨["r", "d"], none, some ["r"]⟩] :=
  ⟨rfl, rfl, rfl, rfl⟩

/-- C2 (amended): a directory entry with any
`RejectIfChildrenDirectoriesArePresent` result FALSE is hard-rejected:
the processing state is returned unchanged, so the directory is excluded
from the accepted set, registers no ancestors, and is never appended to
the queued-subdirectory list. -/
theorem children_reject_hard_rejects (src root : PathBuf) (pf : Option Bool)
    (st : ProcessState) (e : RuledEntry) (rs : List Bool)
    (h1 : e.metadata.isDir = true)
    (h2 : e.acceptance RuleKind.RejectIfChildrenDirectoriesArePresent = some rs)
    (h3 : false ∈ rs) :
    process_one_entry src root pf st e = st := by
  have hc : rejected_by_children_directories e.acceptance = true :=
    rejected_by_children_of_mem _ rs h2 h3
  by_cases hg : rejected_by_reject_glob e.acceptance = true
  · simp [process_one_entry, hg]
  · simp only [Bool.not_eq_true] at hg
    simp [process_one_entry, hg, h1, process_and_maybe_reject_by_directory_rules, hc]

/-- Witness for C2: a directory with a false children-presence reject
result leaves the state untouched. -/
theorem children_reject_hard_rejects_witness :
    process_one_entry ["r"] ["r"] none emptyState entryRejChildFalse = emptyState :=
  children_reject_hard_rejects ["r"] ["r"] none emptyState entryRejChildFalse [false] rfl rfl
    (List.mem_singleton.mpr rfl)

/-- C3 counterexample: a directory inheriting an Accepted flag whose own
`AcceptIfChildrenDirectoriesArePresent` results are all false keeps the
inherited Accepted flag in its queued descriptor, contradicting the claim
that the flag is then set to Rejected. -/
theorem children_accept_flag_counterexample :
    entryAccChildFalse.acceptance RuleKind.AcceptIfChildrenDirectoriesArePresent
        = some [false] ∧
      (process_rules_results ["r"] ["r"] (some true) [entryAccChildFalse]
          (some [])).maybeToKeepWalking
        = some [⟨["r", "d"], some true, some ["r"]⟩] :=
  ⟨rfl, rfl⟩

/-- C3 (amended): for a directory that is not hard-rejected and has
`AcceptIfChildrenDirectoriesArePresent` results, the flag carried into
its queued descriptor is Accepted if any result is true; otherwise it
becomes Rejected only when the inherited flag was still Unknown, and an
inherited Accepted or Rejected flag is kept unchanged. -/
theorem children_accept_flag_update (cp parent : PathBuf)
    (acceptance : RuleKind → Option (List Bool)) (flagIn : Option Bool)
    (l : List ToWalkEntry) (rs : List Bool)
    (h1 : rejected_by_children_directories acceptance = false)
    (h2 : acceptance RuleKind.AcceptIfChildrenDirectoriesArePresent = some rs) :
    process_and_maybe_reject_by_directory_rules cp parent acceptance flagIn (some l) =
      (false,
        if rs.any id then some true else if flagIn = none then some false else flagIn,
        some (l ++ [⟨cp,
          if rs.any id then some true else if flagIn = none then some false else flagIn,
          some parent⟩])) := by
  have hf : updated_children_flag acceptance flagIn
      = (if rs.any id then some true else if flagIn = none then some false else flagIn) := by
    unfold updated_children_flag
    rw [h2]
    cases h : rs.any id
    · have h' : true ∉ rs := by simpa using h
      cases flagIn <;> simp [h, h']
    · have h' : true ∈ rs := by simpa using h
      simp [h, h']
  rw [pmr_not_rejected cp parent acceptance flagIn (some l) h1, hf]
  rfl

/-- Witness for C3: with an Unknown inherited flag and an all-false
accept-children rule, the queued flag becomes Rejected. -/
theorem children_accept_flag_update_witness :
    process_and_maybe_reject_by_directory_rules ["r", "d"] ["r"] accAcceptChildrenFalse none
        (some [])
      = (false, some false, some [⟨["r", "d"], some false, some ["r"]⟩]) := by
  have h := children_accept_flag_update ["r", "d"] ["r"] accAcceptChildrenFalse none [] [false]
    rfl rfl
  simpa using h

/-- C5: for an entry surviving the reject glob and the directory rules,
an all-false registered `AcceptFilesByGlob` vector rejects it from the
accepted set; otherwise it is accepted exactly when the effective
inherited children-acceptance flag is not explicitly Rejected (Unknown
and Accepted both admit it). -/
theorem accept_glob_and_flag_gate (src root : PathBuf) (pf : Option Bool)
    (st : ProcessState) (e : RuledEntry)
    (h1 : rejected_by_reject_glob e.acceptance = false)
    (h2 : e.metadata.isDir = true → rejected_by_children_directories e.acceptance = false) :
    ((rejected_by_accept_glob e.acceptance = true →
        (process_one_entry src root pf st e).accepted = st.accepted) ∧
      (rejected_by_accept_glob e.acceptance = false →
        (process_one_entry src root pf st e).accepted =
          if (if e.metadata.isDir then updated_children_flag e.acceptance pf else pf).getD true
          then st.accepted ++ [(e.path, e.metadata)]
          else st.accepted)) := by
  cases hd : e.metadata.isDir
  · constructor
    · intro hag
      simp [process_one_entry, h1, hd, hag]
    · intro hag
      simp only [process_one_entry, h1, hd, hag, Bool.false_eq_true, if_false,
        accept_ancestors]
      split <;> simp
  · have hc := h2 hd
    constructor
    · intro hag
      simp [process_one_entry, h1, hd, hag, pmr_not_rejected e.path src e.acceptance pf
        st.maybeToKeepWalking hc]
    · intro hag
      simp only [process_one_entry, h1, hd, hag, Bool.false_eq_true, if_false, if_true,
        pmr_not_rejected e.path src e.acceptance pf st.maybeToKeepWalking hc,
        accept_ancestors]
      split <;> simp

/-- Witness for C5: a file passing its accept glob under an Unknown
inherited flag enters the accepted set. -/
theorem accept_glob_and_flag_gate_witness :
    (process_one_entry ["r"] ["r"] none emptyStateNoQueue entryAccGlobTrue).accepted
      = [(["r", "f"], sampleFileMeta)] := by
  have h := (accept_glob_and_flag_gate ["r"] ["r"] none emptyStateNoQueue entryAccGlobTrue rfl
    (by decide)).2 rfl
  simpa using h

theorem keep_walking_false (b : PathBuf → Bool → Except String IsolatedFilePathData)
    (m : Option (List ToWalkEntry)) (es : List String) :
    keep_walking false b m es = ([], es) := by cases m <;> rfl

theorem foldl_keepWalkingStep_errors (b : PathBuf → Bool → Except String IsolatedFilePathData)
    (l : List ToWalkEntry) :
    ∀ (hs : List ToWalkEntry) (es : List String),
    ∃ extra, (l.foldl (keepWalkingStep b) (hs, es)).2 = es ++ extra := by
  induction l with
  | nil => exact fun hs es => ⟨[], (List.append_nil es).symm⟩
  | cons te l ih =>
    intro hs es
    rw [List.foldl_cons]
    cases hb : b te.path true with
    | ok iso =>
      have hstep : keepWalkingStep b (hs, es) te = (hs ++ [te], es) := by
        unfold keepWalkingStep; rw [hb]
      rw [hstep]
      exact ih (hs ++ [te]) es
    | error er =>
      have hstep : keepWalkingStep b (hs, es) te = (hs, es ++ [er]) := by
        unfold keepWalkingStep; rw [hb]
      rw [hstep]
      obtain ⟨extra, hx⟩ := ih hs (es ++ [er])
      exact ⟨[er] ++ extra, by rw [hx, List.append_assoc]⟩

theorem keep_walking_errors_extend (d : Bool)
    (b : PathBuf → Bool → Except String IsolatedFilePathData)
    (m : Option (List ToWalkEntry)) (es : List String) :
    ∃ extra, (keep_walking d b m es).2 = es ++ extra := by
  cases d
  · rw [keep_walking_false]
    exact ⟨[], (List.append_nil es).symm⟩
  · cases m with
    | none => exact ⟨[], (List.append_nil es).symm⟩
    | some l => exact foldl_keepWalkingStep_errors b l [] es

theorem gather_fetch_error (b : PathBuf → Bool → Except String IsolatedFilePathData)
    (msg : String) (aps : List (PathBuf × Metadata)) (eiso : IsolatedFilePathData)
    (errs : List String) :
    gather_file_paths_to_remove b (fun _ _ => Except.error msg) aps eiso errs
      = (((aps.foldl (gatherBuildStep b) ([], [], errs)).1, []),
          (aps.foldl (gatherBuildStep b) ([], [], errs)).2.2 ++ [msg]) := rfl

theorem stages_removal_fetch_error (env : WalkEnv) (root : PathBuf) (entry : ToWalkEntry)
    (eiso : IsolatedFilePathData) (d : Bool) (des : List (Except String PathBuf))
    (msg : String)
    (hf : env.fetchFilePathsToRemove = fun _ _ => Except.error msg) :
    (stagesAfterRead env root entry eiso d des).2.1.2 = [] ∧
      ∃ pre, (stagesAfterRead env root entry eiso d des).2.2 = pre ++ [msg] := by
  unfold stagesAfterRead
  dsimp only
  rw [hf, gather_fetch_error]
  exact ⟨rfl, _, rfl⟩

/-- C6: every directory entry considered during rule-result processing
that is neither rejected by a reject glob nor hard-rejected by a
children-presence reject rule is appended to an existing
queued-subdirectory list with its path, its updated inherited flag and
its parent path — even when it is afterwards excluded from the accepted
set by an accept glob or a Rejected flag; and a task run without a
dispatcher never dispatches any subdirectory. -/
theorem subdirectory_queueing :
    (∀ (src root : PathBuf) (pf : Option Bool) (st : ProcessState) (e : RuledEntry)
        (l : List ToWalkEntry),
      st.maybeToKeepWalking = some l →
      e.metadata.isDir = true →
      rejected_by_reject_glob e.acceptance = false →
      rejected_by_children_directories e.acceptance = false →
      (process_one_entry src root pf st e).maybeToKeepWalking =
        some (l ++ [⟨e.path, updated_children_flag e.acceptance pf, some src⟩])) ∧
    (∀ (env : WalkEnv) (root : PathBuf) (entry : ToWalkEntry) (eiso : IsolatedFilePathData)
        (freshIds : Nat → Nat) (out : WalkOutput),
      WalkDirTask.run env root entry eiso false freshIds = Except.ok out →
      out.keepWalking = []) := by
  constructor
  · intro src root pf st e l hq hd hg hc
    have hpmr := pmr_not_rejected e.path src e.acceptance pf (some l) hc
    simp [process_one_entry, hg, hd, hq, hpmr]
    split
    · rfl
    · split <;> rfl
  · intro env root entry eiso freshIds out hrun
    unfold WalkDirTask.run at hrun
    split at hrun
    · simp at hrun
    · dsimp only at hrun
      split at hrun
      · simp at hrun
      · injection hrun with h
        rw [← h]
        simp [keep_walking_false]

/-- Witness for C6: a directory failing its accept glob is still queued
carrying the Unknown flag; a dispatcherless run dispatches nothing. -/
theorem subdirectory_queueing_witness :
    ((process_one_entry ["r"] ["r"] none emptyState entryAccGlobFalseDir).maybeToKeepWalking
        = some [⟨["r", "d"], none, some ["r"]⟩]) ∧
      outNoDispatcher.keepWalking = [] := by
  constructor
  · have h := subdirectory_queueing.1 ["r"] ["r"] none emptyState entryAccGlobFalseDir []
      rfl rfl rfl rfl
    exact h
  · exact subdirectory_queueing.2 envBase ["r"] sampleToWalk sampleIso id outNoDispatcher rfl

/-- C8: failure of the removal-candidate fetch is non-fatal: any
successful run whose removal fetch always fails produces a full output
with an empty removal set and the error recorded; whereas a failing
existing-records lookup makes Finalize abort with that error whenever
any walking entry reaches it, and a failing directory open aborts the
whole task with that error. -/
theorem fatal_and_nonfatal_failures :
    (∀ (env : WalkEnv) (root : PathBuf) (entry : ToWalkEntry) (eiso : IsolatedFilePathData)
        (d : Bool) (freshIds : Nat → Nat) (msg : String) (out : WalkOutput),
      env.fetchFilePathsToRemove = (fun _ _ => Except.error msg) →
      WalkDirTask.run env root entry eiso d freshIds = Except.ok out →
      out.toRemove = [] ∧ msg ∈ out.errors) ∧
    (∀ (freshIds : Nat → Nat) (m : String) (entries : List WalkingEntry),
      entries ≠ [] →
      segregate_creates_and_updates freshIds (fun _ => Except.error m) entries
        = Except.error m) ∧
    (∀ (env : WalkEnv) (root : PathBuf) (entry : ToWalkEntry) (eiso : IsolatedFilePathData)
        (d : Bool) (freshIds : Nat → Nat) (m : String),
      env.readDir entry.path = Except.error m →
      WalkDirTask.run env root entry eiso d freshIds = Except.error m) := by
  refine ⟨?_, ?_, ?_⟩
  · intro env root entry eiso d freshIds msg out hf hrun
    unfold WalkDirTask.run at hrun
    split at hrun
    · simp at hrun
    · next des heq =>
      dsimp only at hrun
      split at hrun
      · simp at hrun
      · injection hrun with h
        obtain ⟨h1, pre, h2⟩ := stages_removal_fetch_error env root entry eiso d des msg hf
        rw [← h]
        constructor
        · exact h1
        · show msg ∈ (keep_walking d env.buildIso
            (stagesAfterRead env root entry eiso d des).1.maybeToKeepWalking
            (stagesAfterRead env root entry eiso d des).2.2).2
          obtain ⟨extra, hx⟩ := keep_walking_errors_extend d env.buildIso
            (stagesAfterRead env root entry eiso d des).1.maybeToKeepWalking
            (stagesAfterRead env root entry eiso d des).2.2
          rw [hx, h2]
          simp
  · intro freshIds m entries hne
    have h0 : entries.isEmpty = false := by
      cases entries with
      | nil => exact absurd rfl hne
      | cons a l => rfl
    simp [segregate_creates_and_updates, h0]
  · intro env root entry eiso d freshIds m h
    unfold WalkDirTask.run
    rw [h]

/-- Witness for C8: a failing removal fetch on an empty directory yields
a full output with `toRemove = []` and the error recorded; a failing
lookup on one walking entry aborts Finalize; a failing directory open
aborts the run. -/
theorem fatal_and_nonfatal_failures_witness :
    (outRemovalFails.toRemove = [] ∧ "rm" ∈ outRemovalFails.errors) ∧
      segregate_creates_and_updates id (fun _ => Except.error "db") [wePresent]
        = Except.error "db" ∧
      WalkDirTask.run envOpenFails ["r"] sampleToWalk sampleIso true id
        = Except.error "open" := by
  refine ⟨fatal_and_nonfatal_failures.1 envRemovalFails ["r"] sampleToWalk sampleIso true id
      "rm" outRemovalFails rfl rfl,
    fatal_and_nonfatal_failures.2.1 id "db" [wePresent] (by simp),
    fatal_and_nonfatal_failures.2.2 envOpenFails ["r"] sampleToWalk sampleIso true id
      "open" rfl⟩

theorem segfold_updates (pairs : List (IsolatedFilePathData × FilePathRecord))
    (freshIds : Nat → Nat) (es : List WalkingEntry) :
    ∀ (acc : List WalkedEntry × List WalkedEntry × Nat),
    (es.foldl (segregateStep pairs freshIds) acc).2.1
      = acc.2.1 ++ es.filterMap (updateOutcome pairs) := by
  induction es with
  | nil => intro acc; simp
  | cons e es ih =>
    intro acc
    rw [List.foldl_cons]
    cases hl : lookupRecord pairs e.isoFilePath with
    | some fp =>
      by_cases hc : updateCheck fp e = true
      · have hstep : segregateStep pairs freshIds acc e
            = (acc.1, acc.2.1 ++ [mkUpdated fp e], acc.2.2 + e.metadata.sizeInBytes) := by
          unfold segregateStep
          rw [hl]
          simp [hc]
        have hout : updateOutcome pairs e = some (mkUpdated fp e) := by
          unfold updateOutcome
          rw [hl]
          simp [hc]
        rw [hstep, ih]
        simp [List.filterMap_cons, hout, List.append_assoc]
      · have hstep : segregateStep pairs freshIds acc e
            = (acc.1, acc.2.1, acc.2.2 + e.metadata.sizeInBytes) := by
          unfold segregateStep
          rw [hl]
          simp [hc]
        have hout : updateOutcome pairs e = none := by
          unfold updateOutcome
          rw [hl]
          simp [hc]
        rw [hstep, ih]
        simp [List.filterMap_cons, hout]
    | none =>
      have hstep : segregateStep pairs freshIds acc e
          = (acc.1 ++ [mkCreated (freshIds acc.1.length) e], acc.2.1,
              acc.2.2 + e.metadata.sizeInBytes) := by
        unfold segregateStep
        rw [hl]
      have hout : updateOutcome pairs e = none := by
        unfold updateOutcome
        rw [hl]
      rw [hstep, ih]
      simp [List.filterMap_cons, hout]

theorem segfold_creates (pairs : List (IsolatedFilePathData × FilePathRecord))
    (freshIds : Nat → Nat) (es : List WalkingEntry) :
    ∀ (acc : List WalkedEntry × List WalkedEntry × Nat),
    (es.foldl (segregateStep pairs freshIds) acc).1
      = acc.1 ++ createsFrom pairs freshIds acc.1.length es := by
  induction es with
  | nil => intro acc; simp [createsFrom]
  | cons e es ih =>
    intro acc
    rw [List.foldl_cons]
    cases hl : lookupRecord pairs e.isoFilePath with
    | some fp =>
      by_cases hc : updateCheck fp e = true
      · have hstep : segregateStep pairs freshIds acc e
            = (acc.1, acc.2.1 ++ [mkUpdated fp e], acc.2.2 + e.metadata.sizeInBytes) := by
          unfold segregateStep
          rw [hl]
          simp [hc]
        rw [hstep, ih]
        simp [createsFrom, hl]
      · have hstep : segregateStep pairs freshIds acc e
            = (acc.1, acc.2.1, acc.2.2 + e.metadata.sizeInBytes) := by
          unfold segregateStep
          rw [hl]
          simp [hc]
        rw [hstep, ih]
        simp [createsFrom, hl]
    | none =>
      have hstep : segregateStep pairs freshIds acc e
          = (acc.1 ++ [mkCreated (freshIds acc.1.length) e], acc.2.1,
              acc.2.2 + e.metadata.sizeInBytes) := by
        unfold segregateStep
        rw [hl]
      rw [hstep, ih]
      simp [createsFrom, hl, List.append_assoc]

theorem updateOutcome_some (pairs : List (IsolatedFilePathData × FilePathRecord))
    (a : WalkingEntry) (fpa : FilePathRecord)
    (hl : lookupRecord pairs a.isoFilePath = some fpa) :
    updateOutcome pairs a
      = if updateCheck fpa a = true then some (mkUpdated fpa a) else none := by
  unfold updateOutcome
  rw [hl]

theorem updateOutcome_none (pairs : List (IsolatedFilePathData × FilePathRecord))
    (a : WalkingEntry) (hl : lookupRecord pairs a.isoFilePath = none) :
    updateOutcome pairs a = none := by
  unfold updateOutcome
  rw [hl]

theorem mem_updates_spec (pairs : List (IsolatedFilePathData × FilePathRecord))
    (es : List WalkingEntry) :
    ∀ u ∈ es.filterMap (updateOutcome pairs),
    ∃ fp, lookupRecord pairs u.isoFilePath = some fp ∧
      u.pubId = fp.pubId ∧ u.maybeObjectId = fp.objectId := by
  intro u hu
  rw [List.mem_filterMap] at hu
  obtain ⟨a, _, hout⟩ := hu
  cases hl : lookupRecord pairs a.isoFilePath with
  | none =>
    rw [updateOutcome_none pairs a hl] at hout
    simp at hout
  | some fpa =>
    rw [updateOutcome_some pairs a fpa hl] at hout
    by_cases hca : updateCheck fpa a = true
    · rw [if_pos hca] at hout
      injection hout with heq
      rw [← heq]
      exact ⟨fpa, hl, rfl, rfl⟩
    · rw [if_neg hca] at hout
      simp at hout

theorem creates_strip (pairs : List (IsolatedFilePathData × FilePathRecord))
    (freshIds : Nat → Nat) (es : List WalkingEntry) :
    ∀ (k : Nat),
    (createsFrom pairs freshIds k es).map toWalkingEntry
      = es.filter (fun e => (lookupRecord pairs e.isoFilePath).isNone) := by
  induction es with
  | nil => intro k; rfl
  | cons e es ih =>
    intro k
    cases hl : lookupRecord pairs e.isoFilePath with
    | none =>
      have hhead : toWalkingEntry (mkCreated (freshIds k) e) = e := rfl
      simp [createsFrom, hl, hhead, ih, List.filter_cons]
    | some fp =>
      simp [createsFrom, hl, ih, List.filter_cons]

theorem creates_ids (pairs : List (IsolatedFilePathData × FilePathRecord))
    (freshIds : Nat → Nat) (es : List WalkingEntry) :
    ∀ (k i : Nat) (w : WalkedEntry),
    (createsFrom pairs freshIds k es).get? i = some w →
    w.pubId = freshIds (k + i) ∧ w.maybeObjectId = none := by
  induction es with
  | nil =>
    intro k i w hw
    simp [createsFrom] at hw
  | cons e es ih =>
    intro k i w hw
    cases hl : lookupRecord pairs e.isoFilePath with
    | none =>
      rw [show createsFrom pairs freshIds k (e :: es)
          = mkCreated (freshIds k) e :: createsFrom pairs freshIds (k + 1) es by
        simp [createsFrom, hl]] at hw
      cases i with
      | zero =>
        simp at hw
        rw [← hw]
        exact ⟨rfl, rfl⟩
      | succ i =>
        simp only [List.get?_cons_succ] at hw
        have h := ih (k + 1) i w hw
        have harith : k + 1 + i = k + (i + 1) := by omega
        rw [harith] at h
        exact h
    | some fp =>
      rw [show createsFrom pairs freshIds k (e :: es)
          = createsFrom pairs freshIds k es by simp [createsFrom, hl]] at hw
      exact ih k i w hw

theorem creates_absent (pairs : List (IsolatedFilePathData × FilePathRecord))
    (freshIds : Nat → Nat) (es : List WalkingEntry) :
    ∀ (k : Nat) (c : WalkedEntry), c ∈ createsFrom pairs freshIds k es →
    lookupRecord pairs c.isoFilePath = none := by
  induction es with
  | nil =>
    intro k c hc
    simp [createsFrom] at hc
  | cons e es ih =>
    intro k c hc
    cases hl : lookupRecord pairs e.isoFilePath with
    | none =>
      rw [show createsFrom pairs freshIds k (e :: es)
          = mkCreated (freshIds k) e :: createsFrom pairs freshIds (k + 1) es by
        simp [createsFrom, hl]] at hc
      rcases List.mem_cons.mp hc with hceq | hmem
      · rw [hceq]
        exact hl
      · exact ih (k + 1) c hmem
    | some fp =>
      rw [show createsFrom pairs freshIds k (e :: es)
          = createsFrom pairs freshIds k es by simp [createsFrom, hl]] at hc
      exact ih k c hc

theorem segregate_ok_characterization (freshIds : Nat → Nat)
    (fetch : List IsolatedFilePathData → Except String (List FilePathRecord))
    (entries : List WalkingEntry) (records : List FilePathRecord)
    (C U : List WalkedEntry) (S : Nat)
    (hne : entries.isEmpty = false)
    (h1 : fetch (entries.map (fun x => x.isoFilePath)) = Except.ok records)
    (h2 : segregate_creates_and_updates freshIds fetch entries = Except.ok (C, U, S)) :
    C = createsFrom (decodeDbRecords records) freshIds 0 entries ∧
      U = entries.filterMap (updateOutcome (decodeDbRecords records)) := by
  unfold segregate_creates_and_updates at h2
  rw [hne] at h2
  rw [h1] at h2
  simp only [Bool.false_eq_true, if_false, Except.ok.injEq] at h2
  have hCa : (List.foldl (segregateStep (decodeDbRecords records) freshIds)
      ([], [], 0) entries).1 = C := by rw [h2]
  have hUa : (List.foldl (segregateStep (decodeDbRecords records) freshIds)
      ([], [], 0) entries).2.1 = U := by rw [h2]
  constructor
  · rw [← hCa, segfold_creates]
    rfl
  · rw [← hUa, segfold_updates]
    rfl

/-- C1 counterexample: a record whose hidden flag was never set but
whose inode, modification time and size all match the observed entry is
pushed into `to_update` by the code, while under the claim's condition
(an unset stored flag treated as the default, which equals the observed
flag here) no discrepancy exists and no update should happen. -/
theorem finalize_update_spec_counterexample :
    segregate_creates_and_updates id (fun _ => Except.ok [recHiddenUnset]) [wePresent]
        = Except.ok ([], [⟨42, some 9, isoF, fpmSample⟩], 0) ∧
      spec_update_condition recHiddenUnset wePresent = false :=
  ⟨rfl, rfl⟩

/-- C1 (amended): a walking entry present in the decoded persistence map
lands in `to_update` exactly when `updateCheck` fires: the stored record
has both an inode and a modification time, and (decoded inode differs,
or the observed modification time exceeds the stored one by more than
1 ms, or the stored hidden flag is unset, or its value differs from the
observed flag), and not (the entry is a directory whose observed size
differs from the decoded stored size) — so the stored-hidden-unset case
always triggers an update, the time comparison is one-sided, and for a
directory any size discrepancy suppresses the update even when another
discrepancy exists. -/
theorem finalize_update_condition (freshIds : Nat → Nat)
    (fetch : List IsolatedFilePathData → Except String (List FilePathRecord))
    (entries : List WalkingEntry) (records : List FilePathRecord)
    (C U : List WalkedEntry) (S : Nat) (e : WalkingEntry) (fp : FilePathRecord)
    (h1 : fetch (entries.map (fun x => x.isoFilePath)) = Except.ok records)
    (h2 : segregate_creates_and_updates freshIds fetch entries = Except.ok (C, U, S))
    (h3 : e ∈ entries)
    (h4 : lookupRecord (decodeDbRecords records) e.isoFilePath = some fp) :
    (mkUpdated fp e ∈ U ↔ updateCheck fp e = true) := by
  have hne : entries.isEmpty = false := by
    cases entries with
    | nil => simp at h3
    | cons a l => rfl
  obtain ⟨-, hU⟩ :=
    segregate_ok_characterization freshIds fetch entries records C U S hne h1 h2
  rw [hU]
  constructor
  · intro hmem
    rw [List.mem_filterMap] at hmem
    obtain ⟨a, _, hout⟩ := hmem
    cases hl : lookupRecord (decodeDbRecords records) a.isoFilePath with
    | none =>
      rw [updateOutcome_none _ a hl] at hout
      simp at hout
    | some fpa =>
      rw [updateOutcome_some _ a fpa hl] at hout
      by_cases hca : updateCheck fpa a = true
      · rw [if_pos hca] at hout
        injection hout with heq
        have hiso : a.isoFilePath = e.isoFilePath := congrArg WalkedEntry.isoFilePath heq
        have hmeta : a.metadata = e.metadata := congrArg WalkedEntry.metadata heq
        have hae : a = e := by
          obtain ⟨ai, am⟩ := a
          obtain ⟨ei, em⟩ := e
          cases hiso
          cases hmeta
          rfl
        rw [hae] at hl
        have hfp : fpa = fp := by
          have := hl.symm.trans h4
          injection this
        rw [← hfp, ← hae]
        exact hca
      · rw [if_neg hca] at hout
        simp at hout
  · intro hc
    rw [List.mem_filterMap]
    refine ⟨e, h3, ?_⟩
    rw [updateOutcome_some _ e fp h4, if_pos hc]

/-- Witness for C1: the hidden-unset record fires `updateCheck` and its
update entry is produced. -/
theorem finalize_update_condition_witness :
    (mkUpdated recHiddenUnset wePresent
        ∈ ([⟨42, some 9, isoF, fpmSample⟩] : List WalkedEntry))
      ↔ updateCheck recHiddenUnset wePresent = true :=
  finalize_update_condition id (fun _ => Except.ok [recHiddenUnset]) [wePresent]
    [recHiddenUnset] [] [⟨42, some 9, isoF, fpmSample⟩] 0 wePresent recHiddenUnset
    rfl rfl (List.mem_singleton.mpr rfl) rfl

/-- C9: in one task's output, every update entry is present in the
decoded persistence map and copies identity and linked object id from
its matched record; the create list is exactly the walking entries
absent from the map, in order, the i-th one carrying the i-th freshly
generated identity and no linked object id; and no isolated path occurs
both as a create and as an update. -/
theorem creates_updates_segregation (freshIds : Nat → Nat)
    (fetch : List IsolatedFilePathData → Except String (List FilePathRecord))
    (entries : List WalkingEntry) (records : List FilePathRecord)
    (C U : List WalkedEntry) (S : Nat)
    (h1 : fetch (entries.map (fun x => x.isoFilePath)) = Except.ok records)
    (h2 : segregate_creates_and_updates freshIds fetch entries = Except.ok (C, U, S)) :
    ((∀ u ∈ U, ∃ fp, lookupRecord (decodeDbRecords records) u.isoFilePath = some fp ∧
        u.pubId = fp.pubId ∧ u.maybeObjectId = fp.objectId) ∧
      C.map toWalkingEntry
        = entries.filter
            (fun e => (lookupRecord (decodeDbRecords records) e.isoFilePath).isNone) ∧
      (∀ (i : Nat) (w : WalkedEntry), C.get? i = some w →
        w.pubId = freshIds i ∧ w.maybeObjectId = none) ∧
      (∀ c ∈ C, ∀ u ∈ U, c.isoFilePath ≠ u.isoFilePath)) := by
  by_cases hne : entries.isEmpty = true
  · have hnil : entries = [] := by
      cases entries with
      | nil => rfl
      | cons a l => simp at hne
    subst hnil
    unfold segregate_creates_and_updates at h2
    simp only [List.isEmpty_nil, if_true, Except.ok.injEq, Prod.mk.injEq] at h2
    obtain ⟨hC, hU, -⟩ := h2
    subst hC
    subst hU
    simp
  · have hne' : entries.isEmpty = false := by
      cases h : entries.isEmpty
      · rfl
      · exact absurd h hne
    obtain ⟨hC, hU⟩ :=
      segregate_ok_characterization freshIds fetch entries records C U S hne' h1 h2
    refine ⟨?_, ?_, ?_, ?_⟩
    · rw [hU]
      exact mem_updates_spec _ _
    · rw [hC]
      exact creates_strip _ _ _ 0
    · intro i w hw
      rw [hC] at hw
      have h := creates_ids _ freshIds entries 0 i w hw
      rw [Nat.zero_add] at h
      exact h
    · intro c hcm u hum hiso
      have hcn := creates_absent _ freshIds entries 0 c (hC ▸ hcm)
      obtain ⟨fp, hfp, -, -⟩ := mem_updates_spec _ entries u (hU ▸ hum)
      rw [hiso] at hcn
      rw [hcn] at hfp
      exact Option.noConfusion hfp

/-- Witness for C9: with one present and one absent walking entry, the
update entry copies identity 42 and object id 9 from its record, the
create list strips back to exactly the absent entry with fresh identity
0 and no object id, and the two isolated paths differ. -/
theorem creates_updates_segregation_witness :
    (∃ fp, lookupRecord (decodeDbRecords [recHiddenUnset])
          (⟨42, some 9, isoF, fpmSample⟩ : WalkedEntry).isoFilePath = some fp ∧
        (42 : Nat) = fp.pubId ∧ (some 9 : Option Nat) = fp.objectId) ∧
      ([⟨0, none, isoG, fpmSample⟩] : List WalkedEntry).map toWalkingEntry
        = [wePresent, weAbsent].filter
            (fun e => (lookupRecord (decodeDbRecords [recHiddenUnset]) e.isoFilePath).isNone) ∧
      (((⟨0, none, isoG, fpmSample⟩ : WalkedEntry)).pubId = id (0 : Nat) ∧
        ((⟨0, none, isoG, fpmSample⟩ : WalkedEntry)).maybeObjectId = none) ∧
      (⟨0, none, isoG, fpmSample⟩ : WalkedEntry).isoFilePath
        ≠ (⟨42, some 9, isoF, fpmSample⟩ : WalkedEntry).isoFilePath := by
  have h := creates_updates_segregation id (fun _ => Except.ok [recHiddenUnset])
    [wePresent, weAbsent] [recHiddenUnset]
    [⟨0, none, isoG, fpmSample⟩] [⟨42, some 9, isoF, fpmSample⟩] 0 rfl rfl
  refine ⟨h.1 ⟨42, some 9, isoF, fpmSample⟩ (List.mem_singleton.mpr rfl), h.2.1, ?_, ?_⟩
  · exact h.2.2.1 0 ⟨0, none, isoG, fpmSample⟩ rfl
  · exact h.2.2.2 ⟨0, none, isoG, fpmSample⟩ (List.mem_singleton.mpr rfl)
      ⟨42, some 9, isoF, fpmSample⟩ (List.mem_singleton.mpr rfl)

/-- C10: a Finalize over an empty walking-entry list returns empty
create and update sets and total size 0 for every persistence proxy —
in particular for one that always fails — so the fatal lookup failure
cannot occur for a task that accepted nothing. -/
theorem empty_walk_finalize (freshIds : Nat → Nat)
    (fetch : List IsolatedFilePathData → Except String (List FilePathRecord)) :
    segregate_creates_and_updates freshIds fetch [] = Except.ok ([], [], 0) := rfl

theorem ancestors_cons (p : PathBuf) (hp : p ≠ []) :
    ancestors p = p :: ancestors p.dropLast := by
  unfold ancestors
  obtain ⟨n, hn⟩ : ∃ n, p.length = n + 1 := by
    have := List.length_pos.mpr hp
    exact ⟨p.length - 1, by omega⟩
  rw [hn, List.length_dropLast, hn]
  simp only [Nat.add_sub_cancel]
  rw [List.range_succ, List.reverse_append, List.reverse_singleton, List.singleton_append,
    List.map_cons]
  congr 1
  · rw [← hn]
    exact List.take_length p
  · apply List.map_congr_left
    intro k hk
    have hk' : k < n + 1 := by
      rw [List.mem_reverse, List.mem_range] at hk
      exact hk
    rw [List.dropLast_eq_take, List.take_take, hn]
    simp only [Nat.add_sub_cancel]
    rw [Nat.min_eq_left (by omega)]

theorem sabr_eq_tw (p root : PathBuf) (hp : p ≠ []) :
    strict_ancestors_below_root p root
      = (ancestors p.dropLast).takeWhile (fun a => decide (a ≠ root)) := by
  unfold strict_ancestors_below_root
  rw [ancestors_cons p hp]
  rfl

theorem tw_ancestors (a root : PathBuf) :
    (ancestors a).takeWhile (fun x => decide (x ≠ root))
      = if a = root then [] else a :: strict_ancestors_below_root a root := by
  by_cases ha : a = []
  · subst ha
    by_cases hr : ([] : PathBuf) = root
    · rw [if_pos hr]
      have h0 : ancestors ([] : PathBuf) = [[]] := rfl
      rw [h0]
      simp [List.takeWhile_cons, hr]
    · rw [if_neg hr]
      have h0 : ancestors ([] : PathBuf) = [[]] := rfl
      rw [h0]
      have h1 : strict_ancestors_below_root [] root = [] := rfl
      rw [h1]
      simp [List.takeWhile_cons, hr]
  · rw [ancestors_cons a ha, List.takeWhile_cons]
    by_cases hr : a = root
    · simp [hr]
    · have hq : decide (a ≠ root) = true := by simp [hr]
      rw [hq]
      simp only [if_true]
      rw [← sabr_eq_tw a root ha, if_neg hr]

theorem sabr_unfold (p root : PathBuf) (hp : p ≠ []) :
    strict_ancestors_below_root p root
      = if p.dropLast = root then []
        else p.dropLast :: strict_ancestors_below_root p.dropLast root := by
  rw [sabr_eq_tw p root hp, tw_ancestors]

theorem sabr_nil (root : PathBuf) : strict_ancestors_below_root [] root = [] := rfl

theorem mem_sabr_length_aux (root : PathBuf) :
    ∀ (n : Nat) (p : PathBuf), p.length ≤ n →
      ∀ x ∈ strict_ancestors_below_root p root, x.length < p.length := by
  intro n
  induction n with
  | zero =>
    intro p hp x hx
    have hp0 : p = [] := by
      cases p with
      | nil => rfl
      | cons a l => simp at hp
    subst hp0
    rw [sabr_nil] at hx
    exact absurd hx (List.not_mem_nil x)
  | succ n ih =>
    intro p hp x hx
    by_cases hpe : p = []
    · subst hpe
      rw [sabr_nil] at hx
      exact absurd hx (List.not_mem_nil x)
    · rw [sabr_unfold p root hpe] at hx
      by_cases hr : p.dropLast = root
      · rw [if_pos hr] at hx
        exact absurd hx (List.not_mem_nil x)
      · rw [if_neg hr] at hx
        have hlen : p.dropLast.length = p.length - 1 := List.length_dropLast p
        have hppos : 0 < p.length := List.length_pos.mpr hpe
        rcases List.mem_cons.mp hx with hxe | hxm
        · rw [hxe, hlen]
          omega
        · have h2 := ih p.dropLast (by omega) x hxm
          rw [hlen] at h2
          omega

theorem mem_sabr_length (root p x : PathBuf)
    (h : x ∈ strict_ancestors_below_root p root) : x.length < p.length :=
  mem_sabr_length_aux root p.length p le_rfl x h

theorem not_mem_sabr_self (root a : PathBuf) :
    a ∉ strict_ancestors_below_root a root :=
  fun h => absurd (mem_sabr_length root a a h) (lt_irrefl _)

theorem isChain_sabr_aux (root : PathBuf) :
    ∀ (n : Nat) (p : PathBuf), p.length ≤ n →
      IsChain root (strict_ancestors_below_root p root) := by
  intro n
  induction n with
  | zero =>
    intro p hp
    have hp0 : p = [] := by
      cases p with
      | nil => rfl
      | cons a l => simp at hp
    subst hp0
    exact IsChain.nil
  | succ n ih =>
    intro p hp
    by_cases hpe : p = []
    · subst hpe
      exact IsChain.nil
    · rw [sabr_unfold p root hpe]
      by_cases hr : p.dropLast = root
      · rw [if_pos hr]
        exact IsChain.nil
      · rw [if_neg hr]
        have hlen : p.dropLast.length ≤ n := by
          have h1 := List.length_dropLast p
          have h2 := List.length_pos.mpr hpe
          omega
        exact IsChain.cons p.dropLast (ih p.dropLast hlen)

theorem isChain_sabr (root p : PathBuf) :
    IsChain root (strict_ancestors_below_root p root) :=
  isChain_sabr_aux root p.length p le_rfl

theorem insert_ancestors_spec (root : PathBuf) (l : List PathBuf) (hl : IsChain root l) :
    ∀ (extra acc : List PathBuf),
      AncClosed root acc →
      (∀ x ∈ extra, ∀ y ∈ strict_ancestors_below_root x root,
        y ∈ l ∨ y ∈ extra ∨ y ∈ acc) →
      (∀ x ∈ l, x ∉ extra) →
      ((∀ x, x ∈ insert_ancestors l (extra ++ acc) ↔ x ∈ l ∨ x ∈ extra ∨ x ∈ acc) ∧
        AncClosed root (insert_ancestors l (extra ++ acc))) := by
  induction hl with
  | nil =>
    intro extra acc hacc hextra hdisj
    constructor
    · intro x
      show x ∈ extra ++ acc ↔ x ∈ ([] : List PathBuf) ∨ x ∈ extra ∨ x ∈ acc
      simp [List.mem_append]
    · intro x hx y hy
      show y ∈ extra ++ acc
      rcases List.mem_append.mp hx with hxe | hxa
      · rcases hextra x hxe y hy with h | h | h
        · exact absurd h (List.not_mem_nil y)
        · exact List.mem_append.mpr (Or.inl h)
        · exact List.mem_append.mpr (Or.inr h)
      · exact List.mem_append.mpr (Or.inr (hacc x hxa y hy))
  | cons a hrest ih =>
    intro extra acc hacc hextra hdisj
    by_cases hm : a ∈ extra ++ acc
    · have hres : insert_ancestors (a :: strict_ancestors_below_root a root) (extra ++ acc)
          = extra ++ acc := by
        simp [insert_ancestors, hm]
      rw [hres]
      have ha_acc : a ∈ acc := by
        rcases List.mem_append.mp hm with h | h
        · exact absurd h (hdisj a (List.mem_cons_self a _))
        · exact h
      have hchain_sub : ∀ y ∈ strict_ancestors_below_root a root, y ∈ acc := hacc a ha_acc
      constructor
      · intro x
        constructor
        · intro hx
          rcases List.mem_append.mp hx with h | h
          · exact Or.inr (Or.inl h)
          · exact Or.inr (Or.inr h)
        · intro hx
          rcases hx with h | h | h
          · rcases List.mem_cons.mp h with he | hmem
            · exact List.mem_append.mpr (Or.inr (he ▸ ha_acc))
            · exact List.mem_append.mpr (Or.inr (hchain_sub x hmem))
          · exact List.mem_append.mpr (Or.inl h)
          · exact List.mem_append.mpr (Or.inr h)
      · intro x hx y hy
        rcases List.mem_append.mp hx with h | h
        · rcases hextra x h y hy with h2 | h2 | h2
          · rcases List.mem_cons.mp h2 with he | hmem
            · exact List.mem_append.mpr (Or.inr (he ▸ ha_acc))
            · exact List.mem_append.mpr (Or.inr (hchain_sub y hmem))
          · exact List.mem_append.mpr (Or.inl h2)
          · exact List.mem_append.mpr (Or.inr h2)
        · exact List.mem_append.mpr (Or.inr (hacc x h y hy))
    · have hres : insert_ancestors (a :: strict_ancestors_below_root a root) (extra ++ acc)
          = insert_ancestors (strict_ancestors_below_root a root) ((a :: extra) ++ acc) := by
        simp [insert_ancestors, hm]
      rw [hres]
      have ihres := ih (a :: extra) acc hacc ?hex ?hdis
      case hex =>
        intro x hx y hy
        rcases List.mem_cons.mp hx with he | hxe
        · subst he
          exact Or.inl hy
        · rcases hextra x hxe y hy with h | h | h
          · rcases List.mem_cons.mp h with he2 | hmem
            · exact Or.inr (Or.inl (by rw [he2]; exact List.mem_cons_self a extra))
            · exact Or.inl hmem
          · exact Or.inr (Or.inl (List.mem_cons_of_mem a h))
          · exact Or.inr (Or.inr h)
      case hdis =>
        intro x hx hcon
        rcases List.mem_cons.mp hcon with he | hxe
        · exact not_mem_sabr_self root a (he ▸ hx)
        · exact hdisj x (List.mem_cons_of_mem a hx) hxe
      obtain ⟨hmem2, hclosed⟩ := ihres
      constructor
      · intro x
        rw [hmem2 x]
        constructor
        · intro h
          rcases h with h | h | h
          · exact Or.inl (List.mem_cons_of_mem a h)
          · rcases List.mem_cons.mp h with he | hxe
            · exact Or.inl (by rw [he]; exact List.mem_cons_self a _)
            · exact Or.inr (Or.inl hxe)
          · exact Or.inr (Or.inr h)
        · intro h
          rcases h with h | h | h
          · rcases List.mem_cons.mp h with he | hxe
            · exact Or.inr (Or.inl (by rw [he]; exact List.mem_cons_self a extra))
            · exact Or.inl hxe
          · exact Or.inr (Or.inl (List.mem_cons_of_mem a h))
          · exact Or.inr (Or.inr h)
      · exact hclosed

theorem insert_sabr_spec (root p : PathBuf) (acc : List PathBuf)
    (hacc : AncClosed root acc) :
    (∀ x, x ∈ insert_ancestors (strict_ancestors_below_root p root) acc
        ↔ x ∈ strict_ancestors_below_root p root ∨ x ∈ acc) ∧
      AncClosed root (insert_ancestors (strict_ancestors_below_root p root) acc) := by
  have h := insert_ancestors_spec root _ (isChain_sabr root p) [] acc hacc
    (fun x hx => absurd hx (List.not_mem_nil x)) (fun x _ => List.not_mem_nil x)
  rw [List.nil_append] at h
  constructor
  · intro x
    rw [h.1 x]
    simp
  · exact h.2

theorem insert_ancestors_nodup : ∀ (l acc : List PathBuf),
    acc.Nodup → (insert_ancestors l acc).Nodup := by
  intro l
  induction l with
  | nil => intro acc h; exact h
  | cons a rest ih =>
    intro acc h
    by_cases hm : a ∈ acc
    · simpa [insert_ancestors, hm] using h
    · have h2 : (a :: acc).Nodup := List.nodup_cons.mpr ⟨hm, h⟩
      simpa [insert_ancestors, hm] using ih (a :: acc) h2

theorem process_one_entry_cases (src root : PathBuf) (pf : Option Bool)
    (st : ProcessState) (e : RuledEntry) :
    ((process_one_entry src root pf st e).accepted = st.accepted ∧
      (process_one_entry src root pf st e).acceptedAncestors = st.acceptedAncestors) ∨
    ((process_one_entry src root pf st e).accepted
        = st.accepted ++ [(e.path, e.metadata)] ∧
      (process_one_entry src root pf st e).acceptedAncestors =
        insert_ancestors (strict_ancestors_below_root e.path root) st.acceptedAncestors) := by
  unfold process_one_entry
  dsimp only
  repeat' split
  all_goals first
    | exact Or.inl ⟨rfl, rfl⟩
    | exact Or.inr ⟨rfl, rfl⟩

theorem process_one_entry_inv (src root : PathBuf) (pf : Option Bool)
    (st : ProcessState) (e : RuledEntry)
    (hclosed : AncClosed root st.acceptedAncestors)
    (haccepted : ∀ pm ∈ st.accepted, ∀ y ∈ strict_ancestors_below_root pm.1 root,
      y ∈ st.acceptedAncestors)
    (hnodup : st.acceptedAncestors.Nodup) :
    AncClosed root (process_one_entry src root pf st e).acceptedAncestors ∧
      (∀ pm ∈ (process_one_entry src root pf st e).accepted,
        ∀ y ∈ strict_ancestors_below_root pm.1 root,
          y ∈ (process_one_entry src root pf st e).acceptedAncestors) ∧
      (process_one_entry src root pf st e).acceptedAncestors.Nodup := by
  rcases process_one_entry_cases src root pf st e with ⟨ha, hb⟩ | ⟨ha, hb⟩
  · rw [ha, hb]
    exact ⟨hclosed, haccepted, hnodup⟩
  · rw [ha, hb]
    obtain ⟨hmem, hcl⟩ := insert_sabr_spec root e.path st.acceptedAncestors hclosed
    refine ⟨hcl, ?_, insert_ancestors_nodup _ _ hnodup⟩
    intro pm hpm y hy
    rcases List.mem_append.mp hpm with hold | hnew
    · exact (hmem y).mpr (Or.inr (haccepted pm hold y hy))
    · have hpe : pm = (e.path, e.metadata) := List.mem_singleton.mp hnew
      rw [hpe] at hy
      exact (hmem y).mpr (Or.inl hy)

theorem process_fold_inv (src root : PathBuf) (pf : Option Bool) :
    ∀ (entries : List RuledEntry) (st : ProcessState),
      AncClosed root st.acceptedAncestors →
      (∀ pm ∈ st.accepted, ∀ y ∈ strict_ancestors_below_root pm.1 root,
        y ∈ st.acceptedAncestors) →
      st.acceptedAncestors.Nodup →
      (AncClosed root (entries.foldl (process_one_entry src root pf) st).acceptedAncestors ∧
        (∀ pm ∈ (entries.foldl (process_one_entry src root pf) st).accepted,
          ∀ y ∈ strict_ancestors_below_root pm.1 root,
            y ∈ (entries.foldl (process_one_entry src root pf) st).acceptedAncestors) ∧
        (entries.foldl (process_one_entry src root pf) st).acceptedAncestors.Nodup) := by
  intro entries
  induction entries with
  | nil =>
    intro st h1 h2 h3
    exact ⟨h1, h2, h3⟩
  | cons e es ih =>
    intro st h1 h2 h3
    rw [List.foldl_cons]
    obtain ⟨g1, g2, g3⟩ := process_one_entry_inv src root pf st e h1 h2 h3
    exact ih (process_one_entry src root pf st e) g1 g2 g3

/-- C7: after rule-result processing, every strict ancestor (below and
excluding the walk root) of every accepted path is registered in the
accepted-ancestor set, and that set holds each ancestor exactly once no
matter how many accepted descendants share it; the per-path insertion
loop stopping at the first already-registered ancestor preserves this
closure because a registered ancestor always carries its own ancestors. -/
theorem accepted_ancestors_closure (src root : PathBuf) (pf : Option Bool)
    (entries : List RuledEntry) (mtkw : Option (List ToWalkEntry)) :
    ((∀ pm ∈ (process_rules_results src root pf entries mtkw).accepted,
        ∀ a ∈ strict_ancestors_below_root pm.1 root,
          a ∈ (process_rules_results src root pf entries mtkw).acceptedAncestors) ∧
      (process_rules_results src root pf entries mtkw).acceptedAncestors.Nodup) := by
  have h := process_fold_inv src root pf entries ⟨[], [], mtkw⟩
    (fun x hx => absurd hx (List.not_mem_nil x))
    (fun pm hpm => absurd hpm (List.not_mem_nil pm))
    List.nodup_nil
  exact ⟨h.2.1, h.2.2⟩

/-- Witness for C7: accepting a path three levels deep registers its
intermediate ancestors below the root, without duplicates. -/
theorem accepted_ancestors_closure_witness :
    (["r", "a", "b"] : PathBuf)
        ∈ (process_rules_results ["r"] ["r"] none [entryPlain] none).acceptedAncestors ∧
      (process_rules_results ["r"] ["r"] none [entryPlain] none).acceptedAncestors.Nodup := by
  have h := accepted_ancestors_closure ["r"] ["r"] none [entryPlain] none
  exact ⟨h.1 (["r", "a", "b", "c"], sampleFileMeta) (by decide) ["r", "a", "b"] (by decide),
    h.2⟩

end Walker
